import Mathlib

/-
Verification of the labeled-table construction and alignment core of the
repository (Series / Index / ColumnarTable / AlignmentEngine).  The
notebooks under `src/` only call into this core; its semantics are modelled
here from the specification's own description (§3, §4, §7, §9 of spec.md)
and checked against the concrete inputs and outputs recorded in the
notebook cells.
-/

set_option maxHeartbeats 1000000

/-- Modelled from the spec: a cell value of a column.  The spec's value
domain is integers, floating-point numbers (modelled exactly as rationals),
text, booleans, and the distinguished missing-value sentinel (§3, §9). -/
inductive Value where
  | int : Int → Value
  | float : Rat → Value
  | str : String → Value
  | bool : Bool → Value
  | missing : Value
  deriving DecidableEq, Repr

/-- Modelled from the spec: a label is a primitive value used to address one
position along an axis — an integer position or a name (§3 Index). -/
inductive Label where
  | nat : Nat → Label
  | str : String → Label
  deriving DecidableEq, Repr

/-- Label-based lookup of a parallel value list: the value paired with the
first occurrence of the label, if any. -/
def lookupLabel {α : Type} : List Label → List α → Label → Option α
  | [], _, _ => none
  | _, [], _ => none
  | i :: is, v :: vs, l => if i = l then some v else lookupLabel is vs l

/-- Modelled from the spec: the default Index for a container of n elements
is the dense integer range 0..n-1 (§4.2). -/
def Index.range (n : Nat) : List Label :=
  (List.range n).map Label.nat

/-- Modelled from the spec: a Series is a fixed-length ordered value
sequence paired 1:1 with an Index (§3). -/
structure Series where
  index : List Label
  values : List Value
  deriving DecidableEq, Repr

/-- Label-based access into a Series. -/
def Series.get (s : Series) (l : Label) : Option Value :=
  lookupLabel s.index s.values l

/-- Modelled from the spec: a Series built from a raw value array receives
the implicit default range Index (§3, §4.2). -/
def Series.fromValues (vs : List Value) : Series :=
  { index := Index.range vs.length, values := vs }

/-- Modelled from the spec: the type-specific semantics of elementwise
addition — numeric plus numeric is the arithmetic sum, string plus string is
concatenation, anything else (including the missing sentinel) yields the
missing sentinel (§4.4 step 2, glossary). -/
def addValue : Value → Value → Value
  | Value.int a, Value.int b => Value.int (a + b)
  | Value.int a, Value.float b => Value.float ((a : Rat) + b)
  | Value.float a, Value.int b => Value.float (a + (b : Rat))
  | Value.float a, Value.float b => Value.float (a + b)
  | Value.str a, Value.str b => Value.str (a ++ b)
  | _, _ => Value.missing

/-- Modelled from the spec: the outer union of two label sequences — all
labels of the left operand in their original order, then the labels present
only in the right operand in their original order (§4.4 step 1). -/
def unionLabels (la lb : List Label) : List Label :=
  la ++ lb.filter (fun l => decide (l ∉ la))

/-- Modelled from the spec: the aligned result cell at one label — the
combined value when the label is present in both operands, the missing
sentinel otherwise (§4.4 steps 2 and 3). -/
def alignCell (a b : Series) (l : Label) : Value :=
  match a.get l, b.get l with
  | some va, some vb => addValue va vb
  | _, _ => Value.missing

/-- Modelled from the spec: the AlignmentEngine applied to two Series under
elementwise addition (§4.4). -/
def Series.add (a b : Series) : Series :=
  { index := unionLabels a.index b.index
    values := (unionLabels a.index b.index).map (alignCell a b) }

theorem lookupLabel_not_mem {α : Type} :
    ∀ (ls : List Label) (vs : List α) (l : Label),
      l ∉ ls → lookupLabel ls vs l = none := by
  intro ls
  induction ls with
  | nil => intro vs l _; cases vs <;> rfl
  | cons i is ih =>
    intro vs l hl
    cases vs with
    | nil => rfl
    | cons v vs =>
      have hne : i ≠ l := fun h => hl (h ▸ List.mem_cons_self i is)
      have hl2 : l ∉ is := fun h => hl (List.mem_cons_of_mem i h)
      simp [lookupLabel, hne, ih vs l hl2]

theorem lookupLabel_mem_of_some {α : Type} :
    ∀ (ls : List Label) (vs : List α) (l : Label) (v : α),
      lookupLabel ls vs l = some v → l ∈ ls ∧ v ∈ vs := by
  intro ls
  induction ls with
  | nil => intro vs l v h; cases vs <;> simp [lookupLabel] at h
  | cons i is ih =>
    intro vs l v h
    cases vs with
    | nil => simp [lookupLabel] at h
    | cons w ws =>
      by_cases hil : i = l
      · subst hil
        simp [lookupLabel] at h
        subst h
        exact ⟨List.mem_cons_self i is, List.mem_cons_self w ws⟩
      · simp [lookupLabel, hil] at h
        rcases ih ws l v h with ⟨h1, h2⟩
        exact ⟨List.mem_cons_of_mem i h1, List.mem_cons_of_mem w h2⟩

theorem lookupLabel_self_map {α : Type} (g : Label → α) :
    ∀ (ls : List Label) (l : Label),
      l ∈ ls → lookupLabel ls (ls.map g) l = some (g l) := by
  intro ls
  induction ls with
  | nil => intro l h; cases h
  | cons i is ih =>
    intro l h
    by_cases hil : i = l
    · subst hil; simp [lookupLabel]
    · have : l ∈ is := by
        rcases List.mem_cons.mp h with h1 | h1
        · exact absurd h1.symm hil
        · exact h1
      simp [lookupLabel, hil, ih l this]

theorem mem_unionLabels (la lb : List Label) (l : Label) :
    l ∈ unionLabels la lb ↔ l ∈ la ∨ l ∈ lb := by
  simp only [unionLabels, List.mem_append, List.mem_filter, decide_eq_true_eq]
  constructor
  · rintro (h | ⟨h, _⟩)
    · exact Or.inl h
    · exact Or.inr h
  · rintro (h | h)
    · exact Or.inl h
    · by_cases ha : l ∈ la
      · exact Or.inl ha
      · exact Or.inr ⟨h, ha⟩

theorem series_add_get_of_mem (a b : Series) (l : Label)
    (h : l ∈ unionLabels a.index b.index) :
    (a.add b).get l = some (alignCell a b l) := by
  unfold Series.add Series.get
  exact lookupLabel_self_map (alignCell a b) _ l h

theorem series_add_get_matched (a b : Series) (l : Label) (va vb : Value)
    (ha : a.get l = some va) (hb : b.get l = some vb) :
    (a.add b).get l = some (addValue va vb) := by
  have hla : l ∈ a.index := (lookupLabel_mem_of_some a.index a.values l va ha).1
  have hmem : l ∈ unionLabels a.index b.index :=
    (mem_unionLabels a.index b.index l).mpr (Or.inl hla)
  rw [series_add_get_of_mem a b l hmem]
  unfold alignCell
  rw [ha, hb]

theorem series_add_get_one_sided (a b : Series) (l : Label)
    (h : (l ∈ a.index ∧ l ∉ b.index) ∨ (l ∉ a.index ∧ l ∈ b.index)) :
    (a.add b).get l = some Value.missing := by
  have hmem : l ∈ unionLabels a.index b.index := by
    rcases h with ⟨h1, _⟩ | ⟨_, h2⟩
    · exact (mem_unionLabels a.index b.index l).mpr (Or.inl h1)
    · exact (mem_unionLabels a.index b.index l).mpr (Or.inr h2)
  rw [series_add_get_of_mem a b l hmem]
  unfold alignCell Series.get
  rcases h with ⟨_, h2⟩ | ⟨h1, _⟩
  · rw [lookupLabel_not_mem b.index b.values l h2]
    cases lookupLabel a.index a.values l <;> rfl
  · rw [lookupLabel_not_mem a.index a.values l h1]

/-- C1: for any two Series combined elementwise, the result label sequence
is all labels of the left operand in order followed by the labels present
only in the right operand in order; a label present in both operands maps
to the combination of the two looked-up values; a label present in exactly
one operand maps to the missing sentinel. -/
theorem series_alignment_law (a b : Series) :
    ((a.add b).index = a.index ++ b.index.filter (fun l => decide (l ∉ a.index)))
    ∧ (∀ l : Label, l ∈ (a.add b).index ↔ l ∈ a.index ∨ l ∈ b.index)
    ∧ (∀ l va vb, a.get l = some va → b.get l = some vb →
        (a.add b).get l = some (addValue va vb))
    ∧ (∀ l, (l ∈ a.index ∧ l ∉ b.index) ∨ (l ∉ a.index ∧ l ∈ b.index) →
        (a.add b).get l = some Value.missing) := by
  refine ⟨rfl, ?_, ?_, ?_⟩
  · intro l; exact mem_unionLabels a.index b.index l
  · intro l va vb ha hb; exact series_add_get_matched a b l va vb ha hb
  · intro l h; exact series_add_get_one_sided a b l h

/-- Left operand of the spot check for the alignment law. -/
def sampleA : Series :=
  { index := [Label.nat 0, Label.nat 1], values := [Value.int 1, Value.int 2] }

/-- Right operand of the spot check for the alignment law. -/
def sampleB : Series :=
  { index := [Label.nat 1, Label.nat 2], values := [Value.int 10, Value.int 20] }

/-- C1 witness: the alignment law evaluated on two concrete misaligned
integer Series. -/
theorem series_alignment_law_spot :
    (sampleA.add sampleB).index = [Label.nat 0, Label.nat 1, Label.nat 2]
    ∧ (sampleA.add sampleB).get (Label.nat 1) = some (Value.int 12)
    ∧ (sampleA.add sampleB).get (Label.nat 0) = some Value.missing
    ∧ (sampleA.add sampleB).get (Label.nat 2) = some Value.missing := by
  have h := series_alignment_law sampleA sampleB
  refine ⟨by decide, ?_, ?_, ?_⟩
  · exact h.2.2.1 (Label.nat 1) (Value.int 2) (Value.int 10) (by decide) (by decide)
  · exact h.2.2.2 (Label.nat 0) (Or.inl ⟨by decide, by decide⟩)
  · exact h.2.2.2 (Label.nat 2) (Or.inr ⟨by decide, by decide⟩)

/-- C5: on every label present in both operands of an elementwise addition,
the result is computed with the type-specific semantics of the operand
values — integers and floats by arithmetic sum, strings by concatenation of
the left value followed by the right value. -/
theorem matched_label_value_semantics (a b : Series) :
    (∀ l m n, a.get l = some (Value.int m) → b.get l = some (Value.int n) →
        (a.add b).get l = some (Value.int (m + n)))
    ∧ (∀ l p q, a.get l = some (Value.float p) → b.get l = some (Value.float q) →
        (a.add b).get l = some (Value.float (p + q)))
    ∧ (∀ l s t, a.get l = some (Value.str s) → b.get l = some (Value.str t) →
        (a.add b).get l = some (Value.str (s ++ t))) := by
  refine ⟨?_, ?_, ?_⟩
  · intro l m n ha hb
    exact series_add_get_matched a b l (Value.int m) (Value.int n) ha hb
  · intro l p q ha hb
    exact series_add_get_matched a b l (Value.float p) (Value.float q) ha hb
  · intro l s t ha hb
    exact series_add_get_matched a b l (Value.str s) (Value.str t) ha hb

/-- Magnitude column of the notebook table, as a Series. -/
def magSeries : Series :=
  { index := [Label.nat 0, Label.nat 1], values := [Value.float 6.7, Value.float 5.2] }

/-- Magnitude-type column of the notebook table, as a Series. -/
def magTypeSeries : Series :=
  { index := [Label.nat 0, Label.nat 1], values := [Value.str "mww", Value.str "mww"] }

/-- Tsunami column of the notebook table, as a Series. -/
def tsunamiSeries : Series :=
  { index := [Label.nat 0, Label.nat 1], values := [Value.int 1, Value.int 0] }

/-- C5 witness: adding the notebook's columns to themselves sums the
numeric cells (6.7 + 6.7 = 13.4, 1 + 1 = 2) and concatenates the string
cells ("mww" ++ "mww" = "mwwmww"). -/
theorem matched_label_value_semantics_spot :
    (magSeries.add magSeries).get (Label.nat 0) = some (Value.float 13.4)
    ∧ (tsunamiSeries.add tsunamiSeries).get (Label.nat 0) = some (Value.int 2)
    ∧ (magTypeSeries.add magTypeSeries).get (Label.nat 0) = some (Value.str "mwwmww") := by
  refine ⟨?_, ?_, ?_⟩
  · have h := (matched_label_value_semantics magSeries magSeries).2.1
      (Label.nat 0) 6.7 6.7 rfl rfl
    rw [h]
    norm_num
  · exact (matched_label_value_semantics tsunamiSeries tsunamiSeries).1
      (Label.nat 0) 1 1 rfl rfl
  · exact (matched_label_value_semantics magTypeSeries magTypeSeries).2.2
      (Label.nat 0) "mww" "mww" rfl rfl

/-- Modelled from the spec: the tagged column types of the design-note
representation, with nullability as an explicit wrapper (§9). -/
inductive DType where
  | integer : DType
  | float : DType
  | text : DType
  | boolean : DType
  | nullable : DType → DType
  | mixed : DType
  deriving DecidableEq, Repr

/-- Tests whether a cell holds the missing sentinel. -/
def isMissing : Value → Bool
  | Value.missing => true
  | _ => false

/-- Tests whether a cell holds an integer. -/
def isInt : Value → Bool
  | Value.int _ => true
  | _ => false

/-- Tests whether a cell holds a float. -/
def isFloat : Value → Bool
  | Value.float _ => true
  | _ => false

/-- Tests whether a cell holds text. -/
def isText : Value → Bool
  | Value.str _ => true
  | _ => false

/-- Tests whether a cell holds a boolean. -/
def isBool : Value → Bool
  | Value.bool _ => true
  | _ => false

/-- Modelled from the spec: post-hoc inference of the single type of a
column from its cells — numeric columns take the narrowest common numeric
type, and a missing sentinel coexisting with numeric cells promotes the
column to a nullable numeric representation, with Integer plus missing
promoting to NullableFloat (§4.3 dtypes, §9 promotion table). -/
def inferDType (cells : List Value) : DType :=
  let m := cells.any isMissing
  let i := cells.any isInt
  let f := cells.any isFloat
  let s := cells.any isText
  let b := cells.any isBool
  if s && !i && !f && !b then (if m then DType.nullable DType.text else DType.text)
  else if b && !i && !f && !s then (if m then DType.nullable DType.boolean else DType.boolean)
  else if (i || f) && !s && !b then
    (if m then DType.nullable DType.float
     else if f then DType.float else DType.integer)
  else if m && !i && !f && !s && !b then DType.nullable DType.float
  else DType.mixed

/-- Numeric widening of a single cell: an integer cell becomes the equal
float, every other cell is unchanged. -/
def widenNum : Value → Value
  | Value.int n => Value.float (n : Rat)
  | v => v

/-- Modelled from the spec: the stored representation of a column — when
the inferred type is (nullable) float, integer cells are widened to floats;
otherwise cells are stored as given (§9 promotion table, mirroring the
source's NaN-for-missing-integer behavior). -/
def storeColumn (cells : List Value) : List Value :=
  match inferDType cells with
  | DType.float => cells.map widenNum
  | DType.nullable DType.float => cells.map widenNum
  | _ => cells

/-- Modelled from the spec: a ColumnarTable is a column Index, a shared row
Index, and one stored value column per column label (§3). -/
structure Table where
  cols : List Label
  rowIndex : List Label
  data : List (List Value)
  deriving DecidableEq, Repr

/-- Column access by column label. -/
def Table.getCol (t : Table) (c : Label) : Option (List Value) :=
  lookupLabel t.cols t.data c

/-- Modelled from the spec: the shape of a table is (row count, column
count) (§4.3). -/
def Table.shape (t : Table) : Nat × Nat :=
  (t.rowIndex.length, t.cols.length)

/-- Cell access by column label and row position. -/
def Table.cell (t : Table) (c : Label) (i : Nat) : Option Value :=
  (t.getCol c).bind (fun col => col.get? i)

/-- Modelled from the spec: the per-column inferred types of a table (§4.3
dtypes). -/
def Table.dtypes (t : Table) : List DType :=
  t.data.map inferDType

/-- Keys of one row-mapping, in order. -/
def rowKeys (row : List (Label × Value)) : List Label :=
  row.map Prod.fst

/-- Value of a row-mapping at a key: the first binding when the key is
present, the missing sentinel when it is absent. -/
def rowLookup (row : List (Label × Value)) (c : Label) : Value :=
  match row.find? (fun p => decide (p.1 = c)) with
  | some p => p.2
  | none => Value.missing

/-- Deduplication of a label stream keeping first occurrences, in order. -/
def firstSeen : List Label → List Label
  | [] => []
  | l :: ls => l :: (firstSeen ls).filter (fun k => decide (k ≠ l))

/-- Modelled from the spec: the column set of a row-oriented construction —
the union of the keys of all row-mappings, in first-seen order (§4.3). -/
def colKeys (rows : List (List (Label × Value))) : List Label :=
  firstSeen (rows.map rowKeys).flatten

/-- Raw (pre-storage) cells of one column of a row-oriented construction:
each row contributes its value at the key, or the missing sentinel. -/
def rawColumn (rows : List (List (Label × Value))) (c : Label) : List Value :=
  rows.map (fun r => rowLookup r c)

/-- Modelled from the spec: row-oriented construction of a ColumnarTable —
columns are the first-seen union of the row keys, the row Index is the
default dense range, rows missing a key contribute the missing sentinel,
and each column is stored under its inferred type (§4.3 construct-from-rows,
§9). -/
def Table.fromRows (rows : List (List (Label × Value))) : Table :=
  { cols := colKeys rows
    rowIndex := Index.range rows.length
    data := (colKeys rows).map (fun c => storeColumn (rawColumn rows c)) }

theorem mem_firstSeen : ∀ (ls : List Label) (k : Label),
    k ∈ firstSeen ls ↔ k ∈ ls := by
  intro ls
  induction ls with
  | nil => intro k; simp [firstSeen]
  | cons l ls ih =>
    intro k
    by_cases hk : k = l
    · subst hk; simp [firstSeen]
    · simp [firstSeen, List.mem_filter, hk, ih k]

theorem nodup_firstSeen : ∀ ls : List Label, (firstSeen ls).Nodup := by
  intro ls
  induction ls with
  | nil => exact List.nodup_nil
  | cons l ls ih =>
    refine List.Nodup.cons ?_ (List.Nodup.filter _ ih)
    intro hmem
    have := (List.mem_filter.mp hmem).2
    simp at this

theorem sublist_firstSeen : ∀ ls : List Label, (firstSeen ls).Sublist ls := by
  intro ls
  induction ls with
  | nil => exact List.Sublist.refl []
  | cons l ls ih =>
    exact List.Sublist.cons₂ l (List.Sublist.trans (List.filter_sublist _) ih)

theorem storeColumn_get_missing (cells : List Value) (i : Nat)
    (h : cells.get? i = some Value.missing) :
    (storeColumn cells).get? i = some Value.missing := by
  unfold storeColumn
  split
  · rw [List.get?_map, h]; rfl
  · rw [List.get?_map, h]; rfl
  · exact h

theorem storeColumn_length (cells : List Value) :
    (storeColumn cells).length = cells.length := by
  unfold storeColumn
  split <;> simp

theorem rowLookup_not_mem (row : List (Label × Value)) (c : Label)
    (h : c ∉ rowKeys row) : rowLookup row c = Value.missing := by
  unfold rowLookup
  have : row.find? (fun p => decide (p.1 = c)) = none := by
    rw [List.find?_eq_none]
    intro p hp
    simp only [decide_eq_true_eq]
    intro hpc
    exact h (hpc ▸ List.mem_map_of_mem Prod.fst hp)
  rw [this]

theorem fromRows_getCol (rows : List (List (Label × Value))) (c : Label)
    (h : c ∈ colKeys rows) :
    (Table.fromRows rows).getCol c = some (storeColumn (rawColumn rows c)) := by
  unfold Table.fromRows Table.getCol
  exact lookupLabel_self_map _ _ c h

/-- C2: row-oriented construction never fails — it is a total operation —
its column set is the union of the keys across all rows in first-seen order
(same membership as the flattened key stream, no duplicates, order a
sublist of that stream), and every cell whose row lacked the corresponding
key holds the missing-value sentinel. -/
theorem from_rows_construction (rows : List (List (Label × Value))) :
    ((Table.fromRows rows).cols = firstSeen (rows.map rowKeys).flatten)
    ∧ (∀ c, c ∈ (Table.fromRows rows).cols ↔ ∃ r ∈ rows, c ∈ rowKeys r)
    ∧ (Table.fromRows rows).cols.Nodup
    ∧ (Table.fromRows rows).cols.Sublist (rows.map rowKeys).flatten
    ∧ (∀ i r c, rows.get? i = some r → c ∈ (Table.fromRows rows).cols →
        c ∉ rowKeys r → (Table.fromRows rows).cell c i = some Value.missing) := by
  refine ⟨rfl, ?_, nodup_firstSeen _, sublist_firstSeen _, ?_⟩
  · intro c
    show c ∈ colKeys rows ↔ _
    unfold colKeys
    rw [mem_firstSeen]
    simp [List.mem_flatten]
  · intro i r c hrow hc hkey
    unfold Table.cell
    rw [fromRows_getCol rows c hc]
    have hraw : (rawColumn rows c).get? i = some Value.missing := by
      unfold rawColumn
      rw [List.get?_map, hrow]
      simp [rowLookup_not_mem r c hkey]
    exact storeColumn_get_missing _ i hraw

/-- Row-mappings of the spec's concrete scenario 2. -/
def scenarioRows : List (List (Label × Value)) :=
  [[(Label.str "a", Value.int 1), (Label.str "b", Value.int 2)],
   [(Label.str "a", Value.int 3)]]

/-- C2 witness: the scenario-2 rows construct a table with columns a and b
where the second row's b cell is the missing sentinel. -/
theorem from_rows_construction_spot :
    (Table.fromRows scenarioRows).cols = [Label.str "a", Label.str "b"]
    ∧ (Table.fromRows scenarioRows).cell (Label.str "b") 1 = some Value.missing := by
  refine ⟨by decide, ?_⟩
  exact (from_rows_construction scenarioRows).2.2.2.2 1
    [(Label.str "a", Value.int 3)] (Label.str "b") (by decide) (by decide) (by decide)

/-- Modelled from the spec: the error taxonomy of the core — ShapeMismatch
for unequal column arrays and MissingField for a record lacking the target
field (§7). -/
inductive DataError where
  | shapeMismatch : DataError
  | missingField : DataError
  deriving DecidableEq, Repr

/-- Length of the first column array, zero for an empty column list. -/
def headLen (cols : List (Label × List Value)) : Nat :=
  match cols with
  | [] => 0
  | p :: _ => p.2.length

/-- Checks that every column array has the length of the first. -/
def allSameLen (cols : List (Label × List Value)) : Bool :=
  cols.all (fun p => decide (p.2.length = headLen cols))

/-- Modelled from the spec: column-oriented construction of a ColumnarTable
— requires all arrays of equal length and fails with ShapeMismatch
otherwise; on success the row Index defaults to the dense range of that
length and each column is stored under its inferred type (§4.3
construct-from-columns, §7, §9). -/
def Table.fromCols (cols : List (Label × List Value)) : Except DataError Table :=
  if allSameLen cols then
    Except.ok
      { cols := cols.map Prod.fst
        rowIndex := Index.range (headLen cols)
        data := cols.map (fun p => storeColumn p.2) }
  else Except.error DataError.shapeMismatch

theorem allSameLen_iff (cols : List (Label × List Value)) :
    allSameLen cols = true ↔ ∀ p ∈ cols, ∀ q ∈ cols, p.2.length = q.2.length := by
  unfold allSameLen
  rw [List.all_eq_true]
  constructor
  · intro h p hp q hq
    have hp2 := h p hp
    have hq2 := h q hq
    simp only [decide_eq_true_eq] at hp2 hq2
    rw [hp2, hq2]
  · intro h p hp
    simp only [decide_eq_true_eq]
    cases cols with
    | nil => cases hp
    | cons q rest =>
      have : headLen (q :: rest) = q.2.length := rfl
      rw [this]
      exact h p hp q (List.mem_cons_self q rest)

/-- C6: column-oriented construction succeeds exactly when all column
arrays have equal length, fails with ShapeMismatch exactly otherwise (and
produces no table then), and on success the row Index is the dense integer
range over the common length. -/
theorem from_cols_construction (cols : List (Label × List Value)) :
    ((∃ t, Table.fromCols cols = Except.ok t) ↔
        ∀ p ∈ cols, ∀ q ∈ cols, p.2.length = q.2.length)
    ∧ ((Table.fromCols cols = Except.error DataError.shapeMismatch) ↔
        ¬ ∀ p ∈ cols, ∀ q ∈ cols, p.2.length = q.2.length)
    ∧ (∀ t, Table.fromCols cols = Except.ok t →
        t.rowIndex = (List.range (headLen cols)).map Label.nat
        ∧ ∀ p ∈ cols, p.2.length = headLen cols) := by
  unfold Table.fromCols
  by_cases h : allSameLen cols = true
  · have hiff := (allSameLen_iff cols).mp h
    refine ⟨⟨fun _ => hiff, fun _ => ⟨_, by rw [if_pos h]⟩⟩, ?_, ?_⟩
    · rw [if_pos h]
      constructor
      · intro hcontr; cases hcontr
      · intro hn; exact absurd hiff hn
    · intro t ht
      rw [if_pos h] at ht
      cases ht
      refine ⟨rfl, ?_⟩
      intro p hp
      have := ((allSameLen_iff cols).mp h) -- pairwise form
      have hall := (List.all_eq_true.mp h) p hp
      simpa using hall
  · have hniff : ¬ ∀ p ∈ cols, ∀ q ∈ cols, p.2.length = q.2.length :=
      fun hc => h ((allSameLen_iff cols).mpr hc)
    rw [if_neg h]
    refine ⟨⟨?_, fun hc => absurd hc hniff⟩, ⟨fun _ => hniff, fun _ => rfl⟩, ?_⟩
    · rintro ⟨t, ht⟩; cases ht
    · intro t ht; cases ht

/-- Columns of the spec's concrete scenario 1. -/
def scenarioCols : List (Label × List Value) :=
  [(Label.str "mag", [Value.float 4.2, Value.float 0.53]),
   (Label.str "place", [Value.str "A", Value.str "B"])]

/-- Columns with mismatched array lengths. -/
def raggedCols : List (Label × List Value) :=
  [(Label.str "mag", [Value.float 4.2, Value.float 0.53]),
   (Label.str "place", [Value.str "A"])]

/-- C6 witness: the scenario-1 columns construct a table whose row Index is
the range 0..1, and ragged columns fail with ShapeMismatch. -/
theorem from_cols_construction_spot :
    (∃ t, Table.fromCols scenarioCols = Except.ok t
        ∧ t.rowIndex = [Label.nat 0, Label.nat 1])
    ∧ Table.fromCols raggedCols = Except.error DataError.shapeMismatch := by
  constructor
  · have h := (from_cols_construction scenarioCols).1.mpr (by decide)
    rcases h with ⟨t, ht⟩
    refine ⟨t, ht, ?_⟩
    have := ((from_cols_construction scenarioCols).2.2 t ht).1
    rw [this]
    decide
  · exact (from_cols_construction raggedCols).2.1.mpr (by decide)

/-- Modelled from the spec: the first n rows of a table — a sliced row
Index with the same columns, the source left unchanged (§4.3 head). -/
def Table.head (t : Table) (n : Nat) : Table :=
  { cols := t.cols
    rowIndex := t.rowIndex.take n
    data := t.data.map (fun col => col.take n) }

/-- Modelled from the spec: the AlignmentEngine applied to two tables under
elementwise addition — the column labels are aligned first by outer union,
then within each matched column pair the rows are aligned; a column present
on one side only is entirely missing-valued over the union row Index (§4.4
step 4). -/
def Table.add (a b : Table) : Table :=
  { cols := unionLabels a.cols b.cols
    rowIndex := unionLabels a.rowIndex b.rowIndex
    data := (unionLabels a.cols b.cols).map (fun c =>
      match a.getCol c, b.getCol c with
      | some ca, some cb =>
        (Series.add { index := a.rowIndex, values := ca }
                    { index := b.rowIndex, values := cb }).values
      | _, _ => (unionLabels a.rowIndex b.rowIndex).map (fun _ => Value.missing)) }

theorem table_add_getCol_of_mem (a b : Table) (c : Label)
    (h : c ∈ unionLabels a.cols b.cols) :
    (a.add b).getCol c = some
      (match a.getCol c, b.getCol c with
       | some ca, some cb =>
         (Series.add { index := a.rowIndex, values := ca }
                     { index := b.rowIndex, values := cb }).values
       | _, _ => (unionLabels a.rowIndex b.rowIndex).map (fun _ => Value.missing)) := by
  unfold Table.add Table.getCol
  exact lookupLabel_self_map _ _ c h

/-- C4: table addition aligns column labels first (outer union, left order
then right-only order); each column matched on both sides is combined by
row-label alignment of the two column Series; a column label present in
only one operand is kept, with its entire result column missing-valued. -/
theorem table_alignment_law (a b : Table) :
    ((a.add b).cols = a.cols ++ b.cols.filter (fun c => decide (c ∉ a.cols)))
    ∧ (∀ c ca cb, a.getCol c = some ca → b.getCol c = some cb →
        (a.add b).getCol c = some
          ((Series.add { index := a.rowIndex, values := ca }
                       { index := b.rowIndex, values := cb }).values))
    ∧ (∀ c, (c ∈ a.cols ∧ c ∉ b.cols) ∨ (c ∉ a.cols ∧ c ∈ b.cols) →
        c ∈ (a.add b).cols
        ∧ ∃ col, (a.add b).getCol c = some col ∧ ∀ v ∈ col, v = Value.missing) := by
  refine ⟨rfl, ?_, ?_⟩
  · intro c ca cb hca hcb
    have hmem : c ∈ unionLabels a.cols b.cols :=
      (mem_unionLabels a.cols b.cols c).mpr
        (Or.inl (lookupLabel_mem_of_some a.cols a.data c ca hca).1)
    rw [table_add_getCol_of_mem a b c hmem, hca, hcb]
  · intro c hc
    have hmem : c ∈ unionLabels a.cols b.cols := by
      rcases hc with ⟨h1, _⟩ | ⟨_, h2⟩
      · exact (mem_unionLabels a.cols b.cols c).mpr (Or.inl h1)
      · exact (mem_unionLabels a.cols b.cols c).mpr (Or.inr h2)
    refine ⟨hmem, ?_⟩
    rw [table_add_getCol_of_mem a b c hmem]
    have hmissing :
        (match a.getCol c, b.getCol c with
         | some ca, some cb =>
           (Series.add { index := a.rowIndex, values := ca }
                       { index := b.rowIndex, values := cb }).values
         | _, _ => (unionLabels a.rowIndex b.rowIndex).map (fun _ => Value.missing)) =
        (unionLabels a.rowIndex b.rowIndex).map (fun _ => Value.missing) := by
      rcases hc with ⟨_, h2⟩ | ⟨h1, _⟩
      · have : b.getCol c = none := lookupLabel_not_mem b.cols b.data c h2
        rw [this]
        cases a.getCol c <;> rfl
      · have : a.getCol c = none := lookupLabel_not_mem a.cols a.data c h1
        rw [this]
    rw [hmissing]
    refine ⟨_, rfl, ?_⟩
    intro v hv
    rcases List.mem_map.mp hv with ⟨_, _, hvv⟩
    exact hvv.symm

/-- Left operand of the table-alignment spot check: one shared column and
one left-only column over rows 0 and 1. -/
def tableA : Table :=
  { cols := [Label.str "tsunami", Label.str "alert"]
    rowIndex := [Label.nat 0, Label.nat 1]
    data := [[Value.int 6, Value.int 5],
             [Value.str "green", Value.str "green"]] }

/-- Right operand of the table-alignment spot check: only the shared
column, over rows 1 and 2. -/
def tableB : Table :=
  { cols := [Label.str "tsunami"]
    rowIndex := [Label.nat 1, Label.nat 2]
    data := [[Value.int 1, Value.int 2]] }

/-- C4 witness: on concrete tables the shared column is row-aligned (5 + 1
at the shared row label, missing at one-sided row labels) and the left-only
column survives entirely missing-valued. -/
theorem table_alignment_law_spot :
    (tableA.add tableB).cols = [Label.str "tsunami", Label.str "alert"]
    ∧ (tableA.add tableB).getCol (Label.str "tsunami") =
        some [Value.missing, Value.int 6, Value.missing]
    ∧ (tableA.add tableB).getCol (Label.str "alert") =
        some [Value.missing, Value.missing, Value.missing] := by
  refine ⟨by decide, ?_, ?_⟩
  · have h := (table_alignment_law tableA tableB).2.1 (Label.str "tsunami")
      [Value.int 6, Value.int 5] [Value.int 1, Value.int 2]
      (by decide) (by decide)
    rw [h]
    decide
  · have h := (table_alignment_law tableA tableB).2.2 (Label.str "alert")
      (Or.inl ⟨by decide, by decide⟩)
    rcases h.2 with ⟨col, hcol, hall⟩
    have hc : (tableA.add tableB).getCol (Label.str "alert") =
        some [Value.missing, Value.missing, Value.missing] := by decide
    rw [hcol] at hc ⊢
    exact hc

/-- Textual form of a label for the export header. -/
def labelText : Label → String
  | Label.nat n => toString n
  | Label.str s => s

/-- Modelled from the spec: per-type serialization of one cell for export —
numbers from their textual form, strings unquoted unless they contain the
delimiter, the missing sentinel as the empty field (§4.3 export, §6). -/
def serializeValue : Value → String
  | Value.int n => toString n
  | Value.float q => toString q
  | Value.str s => if s.data.any (fun ch => decide (ch = ',')) then "\"" ++ s ++ "\"" else s
  | Value.bool b => toString b
  | Value.missing => ""

/-- Cells of the i-th row in column order. -/
def Table.row (t : Table) (i : Nat) : List Value :=
  t.data.map (fun col => (col.get? i).getD Value.missing)

/-- Modelled from the spec: the logical lines of the exported file — first
the comma-joined column names, then one comma-joined serialized row per row
of the table, and no row-label column (§4.3 export, §6). -/
def Table.csvLines (t : Table) : List String :=
  String.intercalate "," (t.cols.map labelText)
    :: (List.range t.rowIndex.length).map
        (fun i => String.intercalate "," ((t.row i).map serializeValue))

/-- Modelled from the spec: the exported file contents — every line
newline-terminated (§6). -/
def Table.toCsv (t : Table) : String :=
  String.join (t.csvLines.map (fun line => line ++ "\n"))

/-- C7: for a table of r rows the export is exactly 1 + r newline-terminated
lines — the first the comma-joined column names in column order, the line
after position i the comma-joined serialized cells of row i in column order,
with one field per data column and no row-label field. -/
theorem csv_export_shape (t : Table) :
    t.csvLines.length = 1 + t.rowIndex.length
    ∧ t.csvLines.get? 0 = some (String.intercalate "," (t.cols.map labelText))
    ∧ (∀ i, i < t.rowIndex.length →
        t.csvLines.get? (i + 1) =
          some (String.intercalate "," ((t.row i).map serializeValue)))
    ∧ (∀ i, ((t.row i).map serializeValue).length = t.data.length)
    ∧ t.toCsv = String.join (t.csvLines.map (fun line => line ++ "\n")) := by
  refine ⟨?_, rfl, ?_, ?_, rfl⟩
  · simp [Table.csvLines]
    omega
  · intro i hi
    simp [Table.csvLines, List.get?_map, List.get?_range, hi]
  · intro i
    simp [Table.row]

/-- The 2-row, 3-column table of the spec's concrete scenario 4. -/
def scenarioTable : Table :=
  { cols := [Label.str "a", Label.str "b", Label.str "c"]
    rowIndex := [Label.nat 0, Label.nat 1]
    data := [[Value.int 1, Value.int 2],
             [Value.str "x", Value.str "y"],
             [Value.int 3, Value.int 4]] }

/-- C7 witness: the scenario-4 table exports exactly three lines — one
header line and two comma-delimited data lines without a row-label field. -/
theorem csv_export_shape_spot :
    scenarioTable.csvLines.length = 1 + 2
    ∧ scenarioTable.csvLines.get? 0 = some "a,b,c"
    ∧ scenarioTable.csvLines.get? 1 = some "1,x,3"
    ∧ scenarioTable.csvLines.get? 2 = some "2,y,4" := by
  have h := csv_export_shape scenarioTable
  refine ⟨h.1, ?_, ?_, ?_⟩
  · rw [h.2.1]; decide
  · rw [h.2.2.1 0 (by decide)]; decide
  · rw [h.2.2.1 1 (by decide)]; decide

/-- Modelled from the spec: the stored result of an elementwise Series
combination — the aligned cells of the AlignmentEngine, stored under the
column's inferred type so that an integer column holding a missing sentinel
is represented as nullable float (§4.4, §9 promotion table, mirroring the
source's float64 output for misaligned addition). -/
def Series.addStored (a b : Series) : Series :=
  { index := (a.add b).index, values := storeColumn ((a.add b).values) }

/-- Modelled from the spec: the structural invariants of a ColumnarTable —
one data column per column label and all columns of the row Index's length
(§3). -/
def TableWF (t : Table) : Prop :=
  t.data.length = t.cols.length ∧ ∀ col ∈ t.data, col.length = t.rowIndex.length

instance (t : Table) : Decidable (TableWF t) := by
  unfold TableWF
  infer_instance

/-- C8: every Series produced by the core operations has as many values as
index labels, and every ColumnarTable produced by the core operations
(construction from columns or rows, head, elementwise combination) is
well-formed with shape (row count, column count). -/
theorem core_invariants :
    (∀ vs, (Series.fromValues vs).values.length = (Series.fromValues vs).index.length)
    ∧ (∀ a b : Series, (a.add b).values.length = (a.add b).index.length)
    ∧ (∀ a b : Series, (a.addStored b).values.length = (a.addStored b).index.length)
    ∧ (∀ cols t, Table.fromCols cols = Except.ok t →
        TableWF t ∧ t.shape = (headLen cols, cols.length))
    ∧ (∀ rows, TableWF (Table.fromRows rows)
        ∧ (Table.fromRows rows).shape = (rows.length, (colKeys rows).length))
    ∧ (∀ (t : Table) n, TableWF t → TableWF (t.head n))
    ∧ (∀ a b : Table, TableWF (a.add b)) := by
  refine ⟨?_, ?_, ?_, ?_, ?_, ?_, ?_⟩
  · intro vs; simp [Series.fromValues, Index.range]
  · intro a b; simp [Series.add]
  · intro a b; simp [Series.addStored, Series.add, storeColumn_length]
  · intro cols t ht
    unfold Table.fromCols at ht
    by_cases h : allSameLen cols = true
    · rw [if_pos h] at ht
      cases ht
      refine ⟨⟨by simp, ?_⟩, by simp [Table.shape, Index.range]⟩
      intro col hcol
      rcases List.mem_map.mp hcol with ⟨p, hp, rfl⟩
      have hlen := (List.all_eq_true.mp h) p hp
      simp only [decide_eq_true_eq] at hlen
      simp [storeColumn_length, hlen, Index.range]
    · rw [if_neg h] at ht; cases ht
  · intro rows
    refine ⟨⟨by simp [Table.fromRows], ?_⟩, by simp [Table.fromRows, Table.shape, Index.range]⟩
    intro col hcol
    rcases List.mem_map.mp hcol with ⟨c, _, rfl⟩
    simp [Table.fromRows, storeColumn_length, rawColumn, Index.range]
  · intro t n ht
    rcases ht with ⟨h1, h2⟩
    refine ⟨by simp [Table.head, h1], ?_⟩
    intro col hcol
    rcases List.mem_map.mp hcol with ⟨c, hc, rfl⟩
    simp [Table.head, h2 c hc]
  · intro a b
    refine ⟨by simp [Table.add], ?_⟩
    intro col hcol
    simp only [Table.add, List.mem_map] at hcol
    rcases hcol with ⟨c, _, rfl⟩
    rcases hA : a.getCol c with _ | ca <;> rcases hB : b.getCol c with _ | cb <;>
      simp [Table.add, Series.add, hA, hB]

/-- C8 witness: the invariants evaluated on the concrete constructed
tables of the other scenarios. -/
theorem core_invariants_spot :
    TableWF (Table.fromRows scenarioRows)
    ∧ (Table.fromRows scenarioRows).shape = (2, 2)
    ∧ TableWF (scenarioTable.head 1)
    ∧ TableWF (tableA.add tableB) := by
  refine ⟨(core_invariants.2.2.2.2.1 scenarioRows).1, ?_, ?_, core_invariants.2.2.2.2.2.2 tableA tableB⟩
  · rw [(core_invariants.2.2.2.2.1 scenarioRows).2]; decide
  · exact core_invariants.2.2.2.2.2.1 scenarioTable 1 (by decide)

theorem isFloat_of_isInt_false (v : Value) (h : isInt v = true) :
    isFloat v = false ∧ isText v = false ∧ isBool v = false := by
  cases v <;> simp_all [isInt, isFloat, isText, isBool]

theorem exists_int_of_isInt (v : Value) (h : isInt v = true) :
    ∃ n, v = Value.int n := by
  cases v <;> simp_all [isInt]

theorem inferDType_int_missing (cells : List Value)
    (hall : ∀ v ∈ cells, isInt v = true ∨ v = Value.missing)
    (hm : Value.missing ∈ cells) :
    inferDType cells = DType.nullable DType.float := by
  have hmiss : cells.any isMissing = true :=
    List.any_eq_true.mpr ⟨Value.missing, hm, rfl⟩
  have hf : cells.any isFloat = false := by
    rw [List.any_eq_false]
    intro v hv
    rcases hall v hv with h | h
    · simp [(isFloat_of_isInt_false v h).1]
    · subst h; decide
  have hs : cells.any isText = false := by
    rw [List.any_eq_false]
    intro v hv
    rcases hall v hv with h | h
    · simp [(isFloat_of_isInt_false v h).2.1]
    · subst h; decide
  have hb : cells.any isBool = false := by
    rw [List.any_eq_false]
    intro v hv
    rcases hall v hv with h | h
    · simp [(isFloat_of_isInt_false v h).2.2]
    · subst h; decide
  cases hi : cells.any isInt <;> simp [inferDType, hmiss, hf, hs, hb, hi]

theorem storeColumn_int_missing (cells : List Value)
    (hall : ∀ v ∈ cells, isInt v = true ∨ v = Value.missing)
    (hm : Value.missing ∈ cells) :
    storeColumn cells = cells.map widenNum := by
  unfold storeColumn
  rw [inferDType_int_missing cells hall hm]

/-- C9: constructed tables report exactly one inferred type per column, a
column of integers and missing sentinels is inferred as NullableFloat
(Integer plus missing promotes, it is neither an error nor left integer),
and the table stores such a column in the widened form. -/
theorem dtype_inference_promotion :
    (∀ rows, (Table.fromRows rows).dtypes.length = (Table.fromRows rows).cols.length)
    ∧ (∀ cols t, Table.fromCols cols = Except.ok t →
        t.dtypes.length = t.cols.length)
    ∧ (∀ cells, (∀ v ∈ cells, isInt v = true ∨ v = Value.missing) →
        Value.missing ∈ cells →
        inferDType cells = DType.nullable DType.float
        ∧ (∀ v ∈ storeColumn cells, isFloat v = true ∨ v = Value.missing))
    ∧ (∀ rows c, c ∈ (Table.fromRows rows).cols →
        (Table.fromRows rows).getCol c = some (storeColumn (rawColumn rows c))) := by
  refine ⟨?_, ?_, ?_, fromRows_getCol⟩
  · intro rows; simp [Table.fromRows, Table.dtypes]
  · intro cols t ht
    unfold Table.fromCols at ht
    by_cases h : allSameLen cols = true
    · rw [if_pos h] at ht
      cases ht
      simp [Table.dtypes]
    · rw [if_neg h] at ht; cases ht
  · intro cells hall hm
    refine ⟨inferDType_int_missing cells hall hm, ?_⟩
    intro v hv
    rw [storeColumn_int_missing cells hall hm] at hv
    rcases List.mem_map.mp hv with ⟨u, hu, rfl⟩
    rcases hall u hu with h | h
    · rcases exists_int_of_isInt u h with ⟨n, rfl⟩
      exact Or.inl rfl
    · subst h; exact Or.inr rfl

/-- C9 witness: the nst-style column of the source (an integer and a
missing sentinel) is inferred and stored as nullable float, and a
row-constructed table exposes its stored columns. -/
theorem dtype_inference_promotion_spot :
    inferDType [Value.int 18, Value.missing] = DType.nullable DType.float
    ∧ (∀ v ∈ storeColumn [Value.int 18, Value.missing],
        isFloat v = true ∨ v = Value.missing)
    ∧ (Table.fromRows scenarioRows).getCol (Label.str "b") =
        some (storeColumn (rawColumn scenarioRows (Label.str "b"))) := by
  have h := dtype_inference_promotion.2.2.1 [Value.int 18, Value.missing]
    (by decide) (by decide)
  exact ⟨h.1, h.2, dtype_inference_promotion.2.2.2 scenarioRows (Label.str "b") (by decide)⟩

theorem isFloat_props (v : Value) (h : isFloat v = true) :
    isText v = false ∧ isBool v = false := by
  cases v <;> simp_all [isFloat, isText, isBool]

theorem exists_float_of_isFloat (v : Value) (h : isFloat v = true) :
    ∃ q, v = Value.float q := by
  cases v <;> simp_all [isFloat]

theorem addValue_numeric (va vb : Value)
    (h1 : isInt va = true ∨ isFloat va = true)
    (h2 : isInt vb = true ∨ isFloat vb = true) :
    isInt (addValue va vb) = true ∨ isFloat (addValue va vb) = true := by
  cases va <;> cases vb <;> simp_all [isInt, isFloat, addValue]

theorem inferDType_numeric_missing (cells : List Value)
    (hall : ∀ v ∈ cells, isInt v = true ∨ isFloat v = true ∨ v = Value.missing)
    (hm : Value.missing ∈ cells) :
    inferDType cells = DType.nullable DType.float := by
  have hmiss : cells.any isMissing = true :=
    List.any_eq_true.mpr ⟨Value.missing, hm, rfl⟩
  have hs : cells.any isText = false := by
    rw [List.any_eq_false]
    intro v hv
    rcases hall v hv with h | h | h
    · simp [(isFloat_of_isInt_false v h).2.1]
    · simp [(isFloat_props v h).1]
    · subst h; decide
  have hb : cells.any isBool = false := by
    rw [List.any_eq_false]
    intro v hv
    rcases hall v hv with h | h | h
    · simp [(isFloat_of_isInt_false v h).2.2]
    · simp [(isFloat_props v h).2]
    · subst h; decide
  cases hi : cells.any isInt <;> cases hf : cells.any isFloat <;>
    simp [inferDType, hmiss, hs, hb, hi, hf]

theorem storeColumn_numeric_missing (cells : List Value)
    (hall : ∀ v ∈ cells, isInt v = true ∨ isFloat v = true ∨ v = Value.missing)
    (hm : Value.missing ∈ cells) :
    storeColumn cells = cells.map widenNum := by
  unfold storeColumn
  rw [inferDType_numeric_missing cells hall hm]

theorem addStored_get_widen (a b : Series) (l : Label)
    (hstore : storeColumn ((a.add b).values) = ((a.add b).values).map widenNum)
    (hmem : l ∈ unionLabels a.index b.index) :
    (a.addStored b).get l = some (widenNum (alignCell a b l)) := by
  unfold Series.addStored Series.get
  show lookupLabel (unionLabels a.index b.index)
      (storeColumn ((a.add b).values)) l = _
  rw [hstore]
  show lookupLabel (unionLabels a.index b.index)
      (((unionLabels a.index b.index).map (alignCell a b)).map widenNum) l = _
  rw [List.map_map]
  exact lookupLabel_self_map (widenNum ∘ alignCell a b) _ l hmem

/-- C10: when two numeric Series (every cell an integer or a float) have
differing label sets, the stored result of their elementwise addition is
promoted wholesale to the nullable float representation — every cell is a
float or the missing sentinel, every matched label holds a float, and even
when both matched operands are integers the cell holds the float form of
the integer sum. -/
theorem misaligned_numeric_add_promotes (a b : Series)
    (ha : ∀ v ∈ a.values, isInt v = true ∨ isFloat v = true)
    (hb : ∀ v ∈ b.values, isInt v = true ∨ isFloat v = true)
    (hdiff : ∃ l, (l ∈ a.index ∧ l ∉ b.index) ∨ (l ∉ a.index ∧ l ∈ b.index)) :
    (∀ v ∈ (a.addStored b).values, isFloat v = true ∨ v = Value.missing)
    ∧ (∀ l va vb, a.get l = some va → b.get l = some vb →
        ∃ q, (a.addStored b).get l = some (Value.float q))
    ∧ (∀ l m n, a.get l = some (Value.int m) → b.get l = some (Value.int n) →
        (a.addStored b).get l = some (Value.float ((m : Rat) + (n : Rat)))) := by
  have hall : ∀ v ∈ (a.add b).values,
      isInt v = true ∨ isFloat v = true ∨ v = Value.missing := by
    intro v hv
    rcases List.mem_map.mp hv with ⟨l, _, rfl⟩
    unfold alignCell
    rcases hA : a.get l with _ | va
    · exact Or.inr (Or.inr rfl)
    rcases hB : b.get l with _ | vb
    · exact Or.inr (Or.inr rfl)
    have hva := ha va (lookupLabel_mem_of_some a.index a.values l va hA).2
    have hvb := hb vb (lookupLabel_mem_of_some b.index b.values l vb hB).2
    rcases addValue_numeric va vb hva hvb with h | h
    · exact Or.inl h
    · exact Or.inr (Or.inl h)
  have hm : Value.missing ∈ (a.add b).values := by
    rcases hdiff with ⟨l, hl⟩
    have hmem : l ∈ unionLabels a.index b.index := by
      rcases hl with ⟨h1, _⟩ | ⟨_, h2⟩
      · exact (mem_unionLabels a.index b.index l).mpr (Or.inl h1)
      · exact (mem_unionLabels a.index b.index l).mpr (Or.inr h2)
    have hcell : alignCell a b l = Value.missing := by
      unfold alignCell Series.get
      rcases hl with ⟨_, h2⟩ | ⟨h1, _⟩
      · rw [lookupLabel_not_mem b.index b.values l h2]
        cases lookupLabel a.index a.values l <;> rfl
      · rw [lookupLabel_not_mem a.index a.values l h1]
    exact List.mem_map.mpr ⟨l, hmem, hcell⟩
  have hstore : storeColumn ((a.add b).values) = ((a.add b).values).map widenNum :=
    storeColumn_numeric_missing _ hall hm
  refine ⟨?_, ?_, ?_⟩
  · intro v hv
    unfold Series.addStored at hv
    rw [hstore] at hv
    rcases List.mem_map.mp hv with ⟨u, hu, rfl⟩
    rcases hall u hu with h | h | h
    · rcases exists_int_of_isInt u h with ⟨n, rfl⟩
      exact Or.inl rfl
    · rcases exists_float_of_isFloat u h with ⟨q, rfl⟩
      exact Or.inl rfl
    · subst h; exact Or.inr rfl
  · intro l va vb hA hB
    have hla : l ∈ a.index := (lookupLabel_mem_of_some a.index a.values l _ hA).1
    have hmem : l ∈ unionLabels a.index b.index :=
      (mem_unionLabels a.index b.index l).mpr (Or.inl hla)
    rw [addStored_get_widen a b l hstore hmem]
    have hcell : alignCell a b l = addValue va vb := by
      unfold alignCell
      rw [hA, hB]
    rw [hcell]
    have hva := ha va (lookupLabel_mem_of_some a.index a.values l va hA).2
    have hvb := hb vb (lookupLabel_mem_of_some b.index b.values l vb hB).2
    rcases addValue_numeric va vb hva hvb with h | h
    · rcases exists_int_of_isInt _ h with ⟨n, hn⟩
      rw [hn]
      exact ⟨(n : Rat), rfl⟩
    · rcases exists_float_of_isFloat _ h with ⟨q, hq⟩
      rw [hq]
      exact ⟨q, rfl⟩
  · intro l m n hA hB
    have hla : l ∈ a.index := (lookupLabel_mem_of_some a.index a.values l _ hA).1
    have hmem : l ∈ unionLabels a.index b.index :=
      (mem_unionLabels a.index b.index l).mpr (Or.inl hla)
    rw [addStored_get_widen a b l hstore hmem]
    have hcell : alignCell a b l = Value.int (m + n) := by
      unfold alignCell
      rw [hA, hB]
      rfl
    simp only [hcell, widenNum]
    norm_num

/-- The notebook's x operand: the five linspace floats under the default
range Index 0..4. -/
def xSeries : Series :=
  { index := Index.range 5
    values := [Value.float 0, Value.float 2.5, Value.float 5,
               Value.float 7.5, Value.float 10] }

/-- The notebook's y operand: the same five floats under the explicit
Index 1..5. -/
def ySeries : Series :=
  { index := [Label.nat 1, Label.nat 2, Label.nat 3, Label.nat 4, Label.nat 5]
    values := [Value.float 0, Value.float 2.5, Value.float 5,
               Value.float 7.5, Value.float 10] }

/-- C10 witness: the notebook's misaligned float Series give a stored sum
column of floats and missing sentinels with a float at the matched label 1,
and the misaligned integer Series hold the float 12 at their matched
label. -/
theorem misaligned_numeric_add_promotes_spot :
    (∀ v ∈ (xSeries.addStored ySeries).values, isFloat v = true ∨ v = Value.missing)
    ∧ (∃ q, (xSeries.addStored ySeries).get (Label.nat 1) = some (Value.float q))
    ∧ (sampleA.addStored sampleB).get (Label.nat 1) = some (Value.float 12) := by
  have hx := misaligned_numeric_add_promotes xSeries ySeries (by decide) (by decide)
    ⟨Label.nat 0, Or.inl ⟨by decide, by decide⟩⟩
  have hsamp := misaligned_numeric_add_promotes sampleA sampleB (by decide) (by decide)
    ⟨Label.nat 0, Or.inl ⟨by decide, by decide⟩⟩
  refine ⟨hx.1, ?_, ?_⟩
  · exact hx.2.1 (Label.nat 1) (Value.float 2.5) (Value.float 0) rfl rfl
  · have h2 := hsamp.2.2 (Label.nat 1) 2 10 (by decide) (by decide)
    rw [h2]
    have : ((2 : Int) : Rat) + ((10 : Int) : Rat) = 12 := by norm_num
    rw [this]

/-- Modelled from the spec: a generic nested document value as produced by
the excluded parse collaborator — scalars, mappings and sequences (§6,
§4.1). -/
inductive Json where
  | null : Json
  | num : Rat → Json
  | str : String → Json
  | bool : Bool → Json
  | obj : List (String × Json) → Json
  | arr : List Json → Json

/-- First binding of a key in a document mapping, if any. -/
def getField (fields : List (String × Json)) (k : String) : Option Json :=
  (fields.find? (fun p => decide (p.1 = k))).map Prod.snd

/-- Modelled from the spec: the target-field of one record — present only
when the record is a mapping containing the field (§4.1). -/
def getTarget (target : String) : Json → Option Json
  | Json.obj fields => getField fields target
  | _ => none

/-- Modelled from the spec: RecordExtractor — extracts the target field of
every record in input order, propagating MissingField to the caller as soon
as a record lacks the field, with no partial output (§4.1, §7). -/
def extractRecords (target : String) : List Json → Except DataError (List Json)
  | [] => Except.ok []
  | r :: rs =>
    match getTarget target r with
    | some v =>
      match extractRecords target rs with
      | Except.ok vs => Except.ok (v :: vs)
      | Except.error e => Except.error e
    | none => Except.error DataError.missingField

theorem extractRecords_ok_spec (target : String) :
    ∀ (records : List Json) (vs : List Json),
      extractRecords target records = Except.ok vs →
      (∀ r ∈ records, (getTarget target r).isSome = true)
      ∧ vs.length = records.length
      ∧ ∀ i r, records.get? i = some r → vs.get? i = getTarget target r := by
  intro records
  induction records with
  | nil =>
    intro vs h
    simp [extractRecords] at h
    subst h
    refine ⟨?_, rfl, ?_⟩
    · intro r hr; cases hr
    · intro i r hi; simp at hi
  | cons r0 rs ih =>
    intro vs h
    unfold extractRecords at h
    rcases ht : getTarget target r0 with _ | v <;> rw [ht] at h
    · cases h
    rcases hrec : extractRecords target rs with e | ws <;> rw [hrec] at h
    · cases h
    cases h
    rcases ih ws hrec with ⟨hall, hlen, hget⟩
    refine ⟨?_, by simp [hlen], ?_⟩
    · intro r hr
      rcases List.mem_cons.mp hr with rfl | hr
      · rw [ht]; rfl
      · exact hall r hr
    · intro i r hi
      cases i with
      | zero =>
        simp at hi
        subst hi
        rw [ht]
        rfl
      | succ i =>
        simp only [List.get?] at hi ⊢
        exact hget i r hi

theorem extractRecords_error_spec (target : String) :
    ∀ (records : List Json) (e : DataError),
      extractRecords target records = Except.error e →
      e = DataError.missingField ∧ ∃ r ∈ records, getTarget target r = none := by
  intro records
  induction records with
  | nil => intro e h; simp [extractRecords] at h
  | cons r0 rs ih =>
    intro e h
    unfold extractRecords at h
    rcases ht : getTarget target r0 with _ | v <;> rw [ht] at h
    · cases h
      exact ⟨rfl, r0, List.mem_cons_self r0 rs, ht⟩
    rcases hrec : extractRecords target rs with e' | ws <;> rw [hrec] at h
    · cases h
      rcases ih e hrec with ⟨he, r, hr, hnone⟩
      exact ⟨he, r, List.mem_cons_of_mem r0 hr, hnone⟩
    · cases h

theorem extractRecords_fail_of_missing (target : String) :
    ∀ (records : List Json) (r : Json), r ∈ records → getTarget target r = none →
      extractRecords target records = Except.error DataError.missingField := by
  intro records
  induction records with
  | nil => intro r hr; cases hr
  | cons r0 rs ih =>
    intro r hr hnone
    unfold extractRecords
    rcases ht : getTarget target r0 with _ | v
    · rfl
    rcases List.mem_cons.mp hr with rfl | hr
    · rw [ht] at hnone; cases hnone
    rw [ih r hr hnone]

/-- C3: record extraction fails — MissingField surfaced to the caller with
no partial output — exactly when some input record lacks the target field;
when every record has it, the result is one mapping per record, in input
order, each exactly the record's target-field mapping. -/
theorem record_extraction_law (target : String) (records : List Json) :
    ((∃ vs, extractRecords target records = Except.ok vs) ↔
        ∀ r ∈ records, (getTarget target r).isSome = true)
    ∧ ((extractRecords target records = Except.error DataError.missingField) ↔
        ∃ r ∈ records, getTarget target r = none)
    ∧ (∀ vs, extractRecords target records = Except.ok vs →
        vs.length = records.length
        ∧ ∀ i r, records.get? i = some r → vs.get? i = getTarget target r) := by
  refine ⟨⟨?_, ?_⟩, ⟨?_, ?_⟩, ?_⟩
  · rintro ⟨vs, hvs⟩
    exact (extractRecords_ok_spec target records vs hvs).1
  · intro hall
    rcases hres : extractRecords target records with e | vs
    · rcases extractRecords_error_spec target records e hres with ⟨_, r, hr, hnone⟩
      have := hall r hr
      rw [hnone] at this
      cases this
    · exact ⟨vs, rfl⟩
  · intro hres
    exact (extractRecords_error_spec target records DataError.missingField hres).2
  · rintro ⟨r, hr, hnone⟩
    exact extractRecords_fail_of_missing target records r hr hnone
  · intro vs hvs
    exact ⟨(extractRecords_ok_spec target records vs hvs).2.1,
           (extractRecords_ok_spec target records vs hvs).2.2⟩

/-- Name of the nested field extracted by the source notebook. -/
def targetField : String := "properties"

/-- Two records shaped like the source's earthquake features, both holding
the target field. -/
def quakeRecords : List Json :=
  [Json.obj [("type", Json.str "Feature"),
             ("properties", Json.obj [("mag", Json.num 4.2), ("tsunami", Json.num 0)])],
   Json.obj [("properties", Json.obj [("mag", Json.num 0.53)])]]

/-- A record batch whose single record lacks the target field. -/
def badRecords : List Json :=
  [Json.obj [("type", Json.str "Feature")]]

/-- C3 witness: extraction over the two complete records yields their two
property mappings in order, and extraction over the incomplete batch fails
with MissingField. -/
theorem record_extraction_law_spot :
    (∃ vs, extractRecords targetField quakeRecords = Except.ok vs
        ∧ vs.length = 2
        ∧ vs.get? 0 = some (Json.obj [("mag", Json.num 4.2), ("tsunami", Json.num 0)]))
    ∧ extractRecords targetField badRecords = Except.error DataError.missingField := by
  constructor
  · have hall : ∀ r ∈ quakeRecords, (getTarget targetField r).isSome = true := by
      intro r hr
      rcases List.mem_cons.mp hr with rfl | hr
      · rfl
      rcases List.mem_cons.mp hr with rfl | hr
      · rfl
      cases hr
    rcases (record_extraction_law targetField quakeRecords).1.mpr hall with ⟨vs, hvs⟩
    have hc := (record_extraction_law targetField quakeRecords).2.2 vs hvs
    refine ⟨vs, hvs, hc.1, ?_⟩
    rw [hc.2 0 (Json.obj [("type", Json.str "Feature"),
        ("properties", Json.obj [("mag", Json.num 4.2), ("tsunami", Json.num 0)])]) rfl]
    rfl
  · exact (record_extraction_law targetField badRecords).2.1.mpr
      ⟨Json.obj [("type", Json.str "Feature")], List.mem_cons_self _ _, rfl⟩
